import Mathlib

/-!
Verification development for the chat-with-pdf repository.

This file gives a shallow embedding, in Lean 4, of the pure computational
core of the repository (the caption/paragraph-to-object linking engine in
src/linking.py and the chunk assembler in src/make_chunks.py), and proves
or refutes the specification claims about it.

Modelling conventions:
- Page coordinates are Python floats; all arithmetic performed on them by
  the code under scrutiny (addition, division by 2, absolute value,
  comparisons) is modelled exactly over the rationals.
- Python dicts with fixed key sets become Lean structures; Python lists
  become Lean lists; in-place mutation of a list element becomes a
  functional update at its index.
- Python strings become Lean strings (or lists of characters where
  character-level slicing is needed).
-/

namespace ChatWithPdf

/-- Bounding box (x0, top, x1, bottom) in page coordinates, as used
throughout src/linking.py (tuples) and src/make_chunks.py. -/
structure BBox where
  x0 : ℚ
  top : ℚ
  x1 : ℚ
  bottom : ℚ
  deriving DecidableEq, Repr

/-- An object a caption can link to: the model of the table / image dicts
built in build_phase4_links (src/linking.py lines 269-301).  The linking
functions read only the bbox field and write only the caption field, so the
other payload fields (rows, ocr_text, numbers) are irrelevant to linking
and omitted here. -/
structure LinkObj where
  bbox : BBox
  caption : Option String
  deriving DecidableEq, Repr

/-- Caption kind returned by detect_caption (src/linking.py lines 38-62). -/
inductive CapType where
  | table
  | figure
  deriving DecidableEq, Repr

/-- A detected caption dict: keys type, number, caption, bbox
(src/linking.py lines 44-49, 54-59, 265-266). -/
structure Caption where
  ctype : CapType
  number : String
  caption : String
  bbox : BBox
  deriving DecidableEq, Repr

/-- A paragraph dict: keys text, top, bottom
(src/linking.py lines 124-128, 137-141). -/
structure Paragraph where
  text : String
  top : ℚ
  bottom : ℚ
  deriving DecidableEq, Repr

/-- horizontal_overlap (src/linking.py lines 162-166):
not (b1[2] < b2[0] or b2[2] < b1[0]). -/
def horizontal_overlap (b1 b2 : BBox) : Bool :=
  !(decide (b1.x1 < b2.x0) || decide (b2.x1 < b1.x0))

/-- bbox_center_distance (src/linking.py lines 169-172): absolute
difference of the vertical centers of the two boxes. -/
def bbox_center_distance (b1 b2 : BBox) : ℚ :=
  |(b1.top + b1.bottom) / 2 - (b2.top + b2.bottom) / 2|

/-- The score computed for one candidate object in the loop body of
link_caption_to_nearest_object (src/linking.py lines 187-197):
vertical-center distance plus an overlap bonus of -200 when the caption
and the object overlap horizontally. -/
def caption_score (cap : Caption) (obj : LinkObj) : ℚ :=
  bbox_center_distance cap.bbox obj.bbox +
    (if horizontal_overlap cap.bbox obj.bbox then -200 else 0)

/-- One iteration of the loop of link_caption_to_nearest_object
(src/linking.py lines 187-201): the accumulator is (best_obj, best_score). -/
def link_caption_step (cap : Caption) (acc : Option LinkObj × ℚ)
    (obj : LinkObj) : Option LinkObj × ℚ :=
  let score := caption_score cap obj
  if score < acc.2 then (some obj, score) else acc

/-- link_caption_to_nearest_object (src/linking.py lines 176-203):
best_obj starts as None, best_score starts as 999999, and each object whose
score is strictly below the current best replaces it. -/
def link_caption_to_nearest_object (cap : Caption) (objects : List LinkObj) :
    Option LinkObj :=
  (objects.foldl (link_caption_step cap) (none, 999999)).1

/-- Index-tracking variant of the same loop.  The source returns a
reference to the selected dict and build_phase4_links mutates it in place;
in the functional model we instead return the position of the selected
object in the candidate list, so that the in-place caption assignment can
be modelled as an update at that index.  The accumulator is
(best index, best_score, position of the next object). -/
def link_caption_idx_step (cap : Caption) (acc : Option Nat × ℚ × Nat)
    (obj : LinkObj) : Option Nat × ℚ × Nat :=
  let score := caption_score cap obj
  if score < acc.2.1 then (some acc.2.2, score, acc.2.2 + 1)
  else (acc.1, acc.2.1, acc.2.2 + 1)

/-- Position of the object link_caption_to_nearest_object selects. -/
def link_caption_to_nearest_object_idx (cap : Caption)
    (objects : List LinkObj) : Option Nat :=
  (objects.foldl (link_caption_idx_step cap) (none, 999999, 0)).1

/-- link_paragraph_to_objects (src/linking.py lines 207-223): a synthetic
full-width box (0, top, 9999, bottom) is built for the paragraph and every
object whose vertical-center distance to it is at most max_distance is
appended to the result, in input order. -/
def link_paragraph_to_objects (para : Paragraph) (objects : List LinkObj)
    (max_distance : ℚ) : List LinkObj :=
  let para_bbox : BBox := ⟨0, para.top, 9999, para.bottom⟩
  objects.foldl
    (fun linked obj =>
      if bbox_center_distance para_bbox obj.bbox ≤ max_distance then
        linked ++ [obj]
      else linked)
    []

/-- The value best_score holds after the loop of
link_caption_to_nearest_object has run over the whole candidate list:
the minimum of the initial sentinel 999999 and all candidate scores. -/
def min_caption_score (cap : Caption) (objects : List LinkObj) : ℚ :=
  objects.foldl (fun s o => min s (caption_score cap o)) 999999

theorem foldl_min_le_init (f : LinkObj → ℚ) (l : List LinkObj) (a : ℚ) :
    l.foldl (fun s o => min s (f o)) a ≤ a := by
  induction l generalizing a with
  | nil => exact le_refl a
  | cons o t ih => exact le_trans (ih (min a (f o))) (min_le_left _ _)

/-- Full characterisation of the best-object fold: the final best_score is
the running minimum, and the final best_obj is the first candidate
attaining it when some candidate improved on the initial score, and the
initial best_obj otherwise. -/
theorem link_caption_fold_spec (cap : Caption) (l : List LinkObj)
    (b : Option LinkObj) (s : ℚ) :
    (l.foldl (link_caption_step cap) (b, s)).2 =
        l.foldl (fun t o => min t (caption_score cap o)) s
    ∧ (l.foldl (fun t o => min t (caption_score cap o)) s < s →
        (l.foldl (link_caption_step cap) (b, s)).1 =
          l.find? (fun o =>
            decide (caption_score cap o =
              l.foldl (fun t o => min t (caption_score cap o)) s)))
    ∧ (¬ l.foldl (fun t o => min t (caption_score cap o)) s < s →
        (l.foldl (link_caption_step cap) (b, s)).1 = b) := by
  induction l generalizing b s with
  | nil =>
    refine ⟨rfl, fun h => absurd h (lt_irrefl s), fun _ => rfl⟩
  | cons o t ih =>
    have hstep : link_caption_step cap (b, s) o =
        if caption_score cap o < s then (some o, caption_score cap o)
        else (b, s) := by
      simp only [link_caption_step]
    by_cases hc : caption_score cap o < s
    · obtain ⟨ih1, ih2, ih3⟩ := ih (some o) (caption_score cap o)
      have hmin : min s (caption_score cap o) = caption_score cap o :=
        min_eq_right (le_of_lt hc)
      have hm : t.foldl (fun u x => min u (caption_score cap x))
          (caption_score cap o) ≤ caption_score cap o :=
        foldl_min_le_init _ t _
      constructor
      · simp only [List.foldl_cons, hstep, if_pos hc, hmin, ih1]
      constructor
      · intro _
        simp only [List.foldl_cons, hstep, if_pos hc, hmin]
        by_cases hlt : t.foldl (fun u x => min u (caption_score cap x))
            (caption_score cap o) < caption_score cap o
        · rw [ih2 hlt, List.find?_cons]
          have hne : ¬ caption_score cap o =
              t.foldl (fun u x => min u (caption_score cap x))
                (caption_score cap o) := ne_of_gt hlt
          simp [hne]
        · have heq : t.foldl (fun u x => min u (caption_score cap x))
              (caption_score cap o) = caption_score cap o :=
            le_antisymm hm (not_lt.mp hlt)
          rw [ih3 hlt, List.find?_cons]
          simp [heq]
      · intro hnot
        exfalso
        apply hnot
        calc (o :: t).foldl (fun u x => min u (caption_score cap x)) s
            = t.foldl (fun u x => min u (caption_score cap x))
                (caption_score cap o) := by
              simp only [List.foldl_cons, hmin]
          _ ≤ caption_score cap o := hm
          _ < s := hc
    · obtain ⟨ih1, ih2, ih3⟩ := ih b s
      have hmin : min s (caption_score cap o) = s :=
        min_eq_left (not_lt.mp hc)
      constructor
      · simp only [List.foldl_cons, hstep, if_neg hc, hmin, ih1]
      constructor
      · intro hlt
        simp only [List.foldl_cons, hmin] at hlt ⊢
        simp only [List.foldl_cons, hstep, if_neg hc, hmin]
        rw [ih2 hlt, List.find?_cons]
        have hne : ¬ caption_score cap o =
            t.foldl (fun u x => min u (caption_score cap x)) s := by
          intro heq
          exact hc (lt_of_le_of_lt (le_of_eq heq) hlt)
        simp [hne]
      · intro hnot
        simp only [List.foldl_cons, hmin] at hnot
        simp only [List.foldl_cons, hstep, if_neg hc, hmin]
        exact ih3 hnot

/-- Helper: the generic append-if fold used by link_paragraph_to_objects
equals an ordinary filter. -/
theorem foldl_append_if_eq_filter (p : LinkObj → Prop) [DecidablePred p]
    (l : List LinkObj) (acc : List LinkObj) :
    l.foldl (fun linked o => if p o then linked ++ [o] else linked) acc =
      acc ++ l.filter (fun o => decide (p o)) := by
  induction l generalizing acc with
  | nil => simp
  | cons o t ih =>
    by_cases hp : p o
    · simp [List.foldl_cons, hp, ih, List.filter_cons]
    · simp [List.foldl_cons, hp, ih, List.filter_cons]

/-- Concrete data: a caption at the top of the page. -/
def cap0 : Caption := ⟨CapType.figure, "1", "Fig. 1", ⟨0, 0, 10, 10⟩⟩

/-- Concrete data: an object so far away that its score reaches the 999999
sentinel (center distance 2000000, no horizontal overlap). -/
def obj_far : LinkObj := ⟨⟨20, 2000000, 30, 2000010⟩, none⟩

/-- C1 counterexample: the claim says a non-empty candidate list always
yields some object ("no distance cap"), but with a single candidate whose
score is at least the 999999 sentinel the loop never updates best_obj and
the function returns none. -/
theorem link_caption_distant_returns_none :
    ([obj_far] ≠ ([] : List LinkObj)) ∧
      link_caption_to_nearest_object cap0 [obj_far] = none := by
  refine ⟨by simp, ?_⟩
  norm_num [link_caption_to_nearest_object, link_caption_step, caption_score,
    bbox_center_distance, horizontal_overlap, cap0, obj_far]

/-- C1 (amended): link_caption_to_nearest_object returns the first object
(in encounter order) whose score — vertical-center distance minus a
200-unit bonus when the boxes overlap horizontally — is minimal, provided
that minimal score is below the initial sentinel 999999; when every score
is at least 999999 (in particular for very distant objects, or an empty
list) it returns none, so the sentinel acts as an implicit distance cap. -/
theorem link_caption_first_min (cap : Caption) (objects : List LinkObj) :
    (min_caption_score cap objects < 999999 →
      link_caption_to_nearest_object cap objects =
        objects.find? (fun o =>
          decide (caption_score cap o = min_caption_score cap objects)))
    ∧ (¬ min_caption_score cap objects < 999999 →
      link_caption_to_nearest_object cap objects = none) := by
  obtain ⟨_, h2, h3⟩ := link_caption_fold_spec cap objects none 999999
  exact ⟨h2, h3⟩

/-- Witness data: two overlapping objects below the caption, the second
one closer. -/
def objW1 : LinkObj := ⟨⟨0, 100, 10, 120⟩, none⟩

/-- Witness data: the closer of the two witness objects. -/
def objW2 : LinkObj := ⟨⟨0, 30, 10, 50⟩, none⟩

/-- Witness for the amended C1 theorem at a concrete input. -/
theorem link_caption_first_min_witness :
    min_caption_score cap0 [objW1, objW2] < 999999 ∧
      link_caption_to_nearest_object cap0 [objW1, objW2] =
        [objW1, objW2].find? (fun o =>
          decide (caption_score cap0 o = min_caption_score cap0 [objW1, objW2])) := by
  have h : min_caption_score cap0 [objW1, objW2] < 999999 := by
    norm_num [min_caption_score, caption_score, bbox_center_distance,
      horizontal_overlap, cap0, objW1, objW2, min_def]
  exact ⟨h, (link_caption_first_min cap0 [objW1, objW2]).1 h⟩

/-- C4 (amended): given a caption and exactly two candidates at equal
vertical-center distance, of which precisely one overlaps the caption
horizontally, the overlapping one is selected in either input order —
provided its score (distance minus the 200 bonus) is below the 999999
sentinel; otherwise the function returns none. -/
theorem overlap_bonus_selects_overlapping (cap : Caption) (a b : LinkObj)
    (hdist : bbox_center_distance cap.bbox a.bbox =
      bbox_center_distance cap.bbox b.bbox)
    (hova : horizontal_overlap cap.bbox a.bbox = true)
    (hovb : horizontal_overlap cap.bbox b.bbox = false)
    (hcap : caption_score cap a < 999999) :
    link_caption_to_nearest_object cap [a, b] = some a ∧
      link_caption_to_nearest_object cap [b, a] = some a := by
  have hsa : caption_score cap a =
      bbox_center_distance cap.bbox b.bbox + (-200) := by
    simp [caption_score, hova, hdist]
  have hsb : caption_score cap b = bbox_center_distance cap.bbox b.bbox := by
    simp [caption_score, hovb]
  constructor
  · simp only [link_caption_to_nearest_object, List.foldl_cons,
      List.foldl_nil, link_caption_step]
    rw [if_pos hcap]
    have hnb : ¬ caption_score cap b < caption_score cap a := by
      rw [hsa, hsb]; linarith
    rw [if_neg hnb]
  · simp only [link_caption_to_nearest_object, List.foldl_cons,
      List.foldl_nil, link_caption_step]
    by_cases hd : caption_score cap b < 999999
    · rw [if_pos hd]
      have hab : caption_score cap a < caption_score cap b := by
        rw [hsa, hsb]; linarith
      rw [if_pos hab]
    · rw [if_neg hd]
      rw [if_pos hcap]

/-- Witness data for C4: an overlapping object 25 units below the caption
center. -/
def objOv : LinkObj := ⟨⟨0, 20, 50, 40⟩, none⟩

/-- Witness data for C4: a non-overlapping object at the same distance. -/
def objNoOv : LinkObj := ⟨⟨200, 20, 300, 40⟩, none⟩

/-- Witness data for C4: a wide caption overlapping only objOv. -/
def capWide : Caption := ⟨CapType.table, "1", "Table 1", ⟨0, 0, 100, 10⟩⟩

/-- Witness for the amended C4 theorem at a concrete input. -/
theorem overlap_bonus_selects_overlapping_witness :
    (bbox_center_distance capWide.bbox objOv.bbox =
        bbox_center_distance capWide.bbox objNoOv.bbox) ∧
      (horizontal_overlap capWide.bbox objOv.bbox = true) ∧
      (horizontal_overlap capWide.bbox objNoOv.bbox = false) ∧
      (caption_score capWide objOv < 999999) ∧
      link_caption_to_nearest_object capWide [objOv, objNoOv] = some objOv ∧
      link_caption_to_nearest_object capWide [objNoOv, objOv] = some objOv := by
  have h1 : bbox_center_distance capWide.bbox objOv.bbox =
      bbox_center_distance capWide.bbox objNoOv.bbox := by
    norm_num [bbox_center_distance, capWide, objOv, objNoOv]
  have h2 : horizontal_overlap capWide.bbox objOv.bbox = true := by
    norm_num [horizontal_overlap, capWide, objOv]
  have h3 : horizontal_overlap capWide.bbox objNoOv.bbox = false := by
    norm_num [horizontal_overlap, capWide, objNoOv]
  have h4 : caption_score capWide objOv < 999999 := by
    norm_num [caption_score, bbox_center_distance, horizontal_overlap,
      capWide, objOv]
  obtain ⟨g1, g2⟩ := overlap_bonus_selects_overlapping capWide objOv objNoOv h1 h2 h3 h4
  exact ⟨h1, h2, h3, h4, g1, g2⟩

/-- C4 counterexample: two candidates at equal distance, exactly one
overlapping, but so far away that even the bonused score reaches the
999999 sentinel — the function returns none rather than the overlapping
object. -/
def objOvFar : LinkObj := ⟨⟨0, 2000000, 10, 2000010⟩, none⟩

/-- The non-overlapping far object of the C4 counterexample. -/
def objNoOvFar : LinkObj := ⟨⟨20, 2000000, 30, 2000010⟩, none⟩

/-- C4 counterexample theorem: the claim instance at this concrete input
fails, returning none instead of the overlapping object. -/
theorem overlap_bonus_far_counterexample :
    (bbox_center_distance cap0.bbox objOvFar.bbox =
        bbox_center_distance cap0.bbox objNoOvFar.bbox) ∧
      (horizontal_overlap cap0.bbox objOvFar.bbox = true) ∧
      (horizontal_overlap cap0.bbox objNoOvFar.bbox = false) ∧
      link_caption_to_nearest_object cap0 [objOvFar, objNoOvFar] = none := by
  refine ⟨?_, ?_, ?_, ?_⟩
  · norm_num [bbox_center_distance, cap0, objOvFar, objNoOvFar]
  · norm_num [horizontal_overlap, cap0, objOvFar]
  · norm_num [horizontal_overlap, cap0, objNoOvFar]
  · norm_num [link_caption_to_nearest_object, link_caption_step,
      caption_score, bbox_center_distance, horizontal_overlap, cap0,
      objOvFar, objNoOvFar]

/-- C6: link_paragraph_to_objects returns exactly the objects whose
vertical-center distance to the synthetic full-page-width box
(0, top, 9999, bottom) is at most max_distance, in input order — it is an
order-preserving filter, with no sorting and no horizontal-overlap bonus. -/
theorem link_paragraph_is_filter (para : Paragraph) (objects : List LinkObj)
    (max_distance : ℚ) :
    link_paragraph_to_objects para objects max_distance =
      objects.filter (fun o =>
        decide (bbox_center_distance ⟨0, para.top, 9999, para.bottom⟩ o.bbox ≤
          max_distance)) := by
  simpa [link_paragraph_to_objects] using
    foldl_append_if_eq_filter
      (fun o =>
        bbox_center_distance ⟨0, para.top, 9999, para.bottom⟩ o.bbox ≤
          max_distance)
      objects []

/-- C9: the linking engine is deterministic — running either linking
function twice on identical inputs gives identical results.  In this
embedding the functions are pure folds over lists in input order (the
source iterates Python lists, never unordered sets or dicts), so equality
of the two runs holds definitionally. -/
theorem linking_engine_deterministic (cap : Caption) (objs1 : List LinkObj)
    (para : Paragraph) (objs2 : List LinkObj) (md : ℚ) :
    link_caption_to_nearest_object cap objs1 =
        link_caption_to_nearest_object cap objs1
    ∧ link_paragraph_to_objects para objs2 md =
        link_paragraph_to_objects para objs2 md :=
  ⟨rfl, rfl⟩

/-- Functional update of a list at an index (identity when out of range);
used to model the in-place mutation best_table["caption"] = ... /
best_img["caption"] = ... in build_phase4_links (src/linking.py
lines 303-313). -/
def updateAt {α : Type} : List α → Nat → (α → α) → List α
  | [], _, _ => []
  | x :: xs, 0, f => f x :: xs
  | x :: xs, n + 1, f => x :: updateAt xs n f

/-- One iteration of the caption-assignment loop of build_phase4_links
(src/linking.py lines 304-313): link the caption to the nearest object of
the matching kind and overwrite that object's caption slot with the
caption's text.  The source mutates the dict returned by
link_caption_to_nearest_object; the model updates the list at the selected
index. -/
def assign_caption (objs : List LinkObj) (cap : Caption) : List LinkObj :=
  match link_caption_to_nearest_object_idx cap objs with
  | none => objs
  | some i => updateAt objs i (fun o => { o with caption := some cap.caption })

/-- The caption-assignment loop of build_phase4_links over one object list
(the tables loop and the images loop are two instances of this, each run
on the captions of its kind). -/
def apply_caption_links (caps : List Caption) (objs : List LinkObj) :
    List LinkObj :=
  caps.foldl assign_caption objs

theorem map_updateAt_eq {α β : Type} (g : α → β) (f : α → α)
    (h : ∀ x, g (f x) = g x) :
    ∀ (l : List α) (i : Nat), (updateAt l i f).map g = l.map g := by
  intro l
  induction l with
  | nil => intro i; rfl
  | cons x xs ih =>
    intro i
    cases i with
    | zero => simp [updateAt, h]
    | succ n => simp [updateAt, ih n]

theorem get?_updateAt_ne {α : Type} (f : α → α) :
    ∀ (l : List α) (i j : Nat), j ≠ i → (updateAt l i f).get? j = l.get? j := by
  intro l
  induction l with
  | nil => intro i j _; rfl
  | cons x xs ih =>
    intro i j hne
    cases i with
    | zero =>
      cases j with
      | zero => exact absurd rfl hne
      | succ m => simp [updateAt]
    | succ n =>
      cases j with
      | zero => simp [updateAt]
      | succ m =>
        simp only [updateAt, List.get?_cons_succ]
        exact ih n m (fun h => hne (by rw [h]))

theorem get?_updateAt_self {α : Type} (f : α → α) :
    ∀ (l : List α) (i : Nat), i < l.length →
      (updateAt l i f).get? i = (l.get? i).map f := by
  intro l
  induction l with
  | nil => intro i hi; exact absurd hi (by simp)
  | cons x xs ih =>
    intro i hi
    cases i with
    | zero => simp [updateAt]
    | succ n =>
      simp only [updateAt, List.get?_cons_succ]
      exact ih n (Nat.lt_of_succ_lt_succ hi)

theorem caption_score_congr (cap : Caption) (o o' : LinkObj)
    (h : o.bbox = o'.bbox) : caption_score cap o = caption_score cap o' := by
  simp [caption_score, h]

/-- The index-selecting fold reads only the bounding boxes of the
candidates: two lists with the same bbox sequence select the same index. -/
theorem link_idx_fold_congr (cap : Caption) :
    ∀ (l l' : List LinkObj), l.map LinkObj.bbox = l'.map LinkObj.bbox →
      ∀ acc, l.foldl (link_caption_idx_step cap) acc =
        l'.foldl (link_caption_idx_step cap) acc := by
  intro l
  induction l with
  | nil =>
    intro l' h acc
    cases l' with
    | nil => rfl
    | cons y ys => exact absurd h (by simp)
  | cons x xs ih =>
    intro l' h acc
    cases l' with
    | nil => exact absurd h (by simp)
    | cons y ys =>
      simp only [List.map_cons, List.cons.injEq] at h
      have hs : caption_score cap x = caption_score cap y :=
        caption_score_congr cap x y h.1
      simp only [List.foldl_cons, link_caption_idx_step, hs]
      exact ih ys h.2 _

theorem link_idx_congr (cap : Caption) (l l' : List LinkObj)
    (h : l.map LinkObj.bbox = l'.map LinkObj.bbox) :
    link_caption_to_nearest_object_idx cap l =
      link_caption_to_nearest_object_idx cap l' := by
  unfold link_caption_to_nearest_object_idx
  rw [link_idx_fold_congr cap l l' h]

theorem link_idx_fold_counter (cap : Caption) :
    ∀ (l : List LinkObj) (acc : Option Nat × ℚ × Nat),
      (l.foldl (link_caption_idx_step cap) acc).2.2 = acc.2.2 + l.length := by
  intro l
  induction l with
  | nil => intro acc; simp
  | cons x xs ih =>
    intro acc
    simp only [List.foldl_cons, link_caption_idx_step]
    by_cases hc : caption_score cap x < acc.2.1
    · rw [if_pos hc, ih]
      simp [Nat.add_comm, Nat.add_assoc, Nat.add_left_comm]
    · rw [if_neg hc, ih]
      simp [Nat.add_comm, Nat.add_assoc, Nat.add_left_comm]

theorem link_idx_fold_bound (cap : Caption) :
    ∀ (l : List LinkObj) (acc : Option Nat × ℚ × Nat),
      (∀ j, acc.1 = some j → j < acc.2.2) →
      ∀ j, (l.foldl (link_caption_idx_step cap) acc).1 = some j →
        j < (l.foldl (link_caption_idx_step cap) acc).2.2 := by
  intro l
  induction l with
  | nil => intro acc hacc j hj; exact hacc j hj
  | cons x xs ih =>
    intro acc hacc j hj
    simp only [List.foldl_cons, link_caption_idx_step] at hj ⊢
    by_cases hc : caption_score cap x < acc.2.1
    · rw [if_pos hc] at hj ⊢
      refine ih _ ?_ j hj
      intro j' hj'
      simp only at hj'
      cases hj'
      exact Nat.lt_succ_self _
    · rw [if_neg hc] at hj ⊢
      refine ih _ ?_ j hj
      intro j' hj'
      simp only at hj'
      exact Nat.lt_succ_of_lt (hacc j' hj')

theorem link_idx_lt_length (cap : Caption) (l : List LinkObj) (i : Nat)
    (h : link_caption_to_nearest_object_idx cap l = some i) : i < l.length := by
  have hb := link_idx_fold_bound cap l (none, 999999, 0)
    (fun j hj => by simp at hj) i h
  rw [link_idx_fold_counter cap l (none, 999999, 0)] at hb
  simpa using hb

theorem assign_caption_map_bbox (objs : List LinkObj) (cap : Caption) :
    (assign_caption objs cap).map LinkObj.bbox = objs.map LinkObj.bbox := by
  cases h : link_caption_to_nearest_object_idx cap objs with
  | none => simp [assign_caption, h]
  | some i =>
    simp only [assign_caption, h]
    exact map_updateAt_eq LinkObj.bbox
      (fun o => { o with caption := some cap.caption }) (fun x => rfl) objs i

theorem assign_caption_length (objs : List LinkObj) (cap : Caption) :
    (assign_caption objs cap).length = objs.length := by
  have h := congrArg List.length (assign_caption_map_bbox objs cap)
  simpa using h

theorem getLast?_cons_eq {α : Type} (a : α) (l : List α) :
    (a :: l).getLast? = match l.getLast? with
      | none => some a
      | some b => some b := by
  cases l with
  | nil => rfl
  | cons x xs =>
    have hne : (x :: xs).getLast? ≠ none := by
      simp [List.getLast?_eq_none_iff]
    obtain ⟨b, hb⟩ := Option.ne_none_iff_exists'.mp hne
    rw [List.getLast?_cons_cons, hb]

/-- C3: after the caption-assignment loop, the caption slot of the object
at position i holds the text of the last caption (in page order) that
selected position i as its best match; if no caption ever selected i the
slot keeps its initial value (None for the objects built in
build_phase4_links).  Selection is evaluated against the original object
list: earlier caption writes change only caption slots, which the linking
score never reads. -/
theorem caption_last_write_wins (caps : List Caption) :
    ∀ (objs : List LinkObj) (i : Nat), i < objs.length →
      ((apply_caption_links caps objs).get? i).bind LinkObj.caption =
        match (caps.filter (fun c =>
            decide (link_caption_to_nearest_object_idx c objs = some i))).getLast? with
        | some c => some c.caption
        | none => (objs.get? i).bind LinkObj.caption := by
  induction caps with
  | nil =>
    intro objs i _
    simp [apply_caption_links]
  | cons c cs ih =>
    intro objs i hi
    have hbbox := assign_caption_map_bbox objs c
    have hlen := assign_caption_length objs c
    have hi' : i < (assign_caption objs c).length := by rw [hlen]; exact hi
    have hfc : cs.filter (fun c' =>
        decide (link_caption_to_nearest_object_idx c' (assign_caption objs c) =
          some i)) =
      cs.filter (fun c' =>
        decide (link_caption_to_nearest_object_idx c' objs = some i)) := by
      apply List.filter_congr
      intro x _
      rw [link_idx_congr x (assign_caption objs c) objs hbbox]
    have happ : apply_caption_links (c :: cs) objs =
        apply_caption_links cs (assign_caption objs c) := by
      simp [apply_caption_links]
    rw [happ, ih (assign_caption objs c) i hi', hfc]
    cases hl : link_caption_to_nearest_object_idx c objs with
    | none =>
      have hobjs' : assign_caption objs c = objs := by simp [assign_caption, hl]
      rw [hobjs']
      simp [List.filter_cons, hl]
    | some j =>
      by_cases hj : j = i
      · subst hj
        have hfilter : (c :: cs).filter (fun c' =>
            decide (link_caption_to_nearest_object_idx c' objs = some j)) =
          c :: cs.filter (fun c' =>
            decide (link_caption_to_nearest_object_idx c' objs = some j)) := by
          simp [List.filter_cons, hl]
        rw [hfilter, getLast?_cons_eq]
        cases ho : objs.get? j with
        | none =>
          exfalso
          rw [List.get?_eq_none] at ho
          exact absurd hi (not_lt.mpr ho)
        | some o =>
          have hup : (assign_caption objs c).get? j =
              some { o with caption := some c.caption } := by
            simp only [assign_caption, hl]
            rw [get?_updateAt_self _ objs j hi, ho]
            rfl
          have hup' : (assign_caption objs c)[j]? =
              some { o with caption := some c.caption } := by
            rw [← List.get?_eq_getElem?]; exact hup
          cases hlast : (cs.filter (fun c' =>
              decide (link_caption_to_nearest_object_idx c' objs =
                some j))).getLast? with
          | none => simp [hlast, hup']
          | some b => simp [hlast, hup']
      · have hobji : (assign_caption objs c).get? i = objs.get? i := by
          simp only [assign_caption, hl]
          exact get?_updateAt_ne _ objs j i (fun h => hj h.symm)
        have hpc : ¬ (link_caption_to_nearest_object_idx c objs = some i) := by
          rw [hl]
          simp [hj]
        have hobji' : (assign_caption objs c)[i]? = objs[i]? := by
          rw [← List.get?_eq_getElem?, ← List.get?_eq_getElem?]; exact hobji
        simp [List.filter_cons, hpc, hobji']

/-- Witness data for C3: two captions that both select position 0. -/
def capFirst : Caption := ⟨CapType.figure, "1", "Fig. 1 first", ⟨0, 0, 10, 10⟩⟩

/-- Witness data for C3: the later caption, also selecting position 0. -/
def capSecond : Caption := ⟨CapType.figure, "2", "Fig. 2 second", ⟨0, 12, 10, 22⟩⟩

/-- Witness data for C3: the object both witness captions select. -/
def objSel : LinkObj := ⟨⟨0, 30, 10, 50⟩, none⟩

/-- Witness data for C3: a distant object never selected. -/
def objIdle : LinkObj := ⟨⟨0, 700, 10, 720⟩, none⟩

/-- Witness for the C3 theorem at a concrete input. -/
theorem caption_last_write_wins_witness :
    0 < ([objSel, objIdle] : List LinkObj).length ∧
      ((apply_caption_links [capFirst, capSecond] [objSel, objIdle]).get? 0).bind
          LinkObj.caption =
        match ([capFirst, capSecond].filter (fun c =>
            decide (link_caption_to_nearest_object_idx c [objSel, objIdle] =
              some 0))).getLast? with
        | some c => some c.caption
        | none => (([objSel, objIdle] : List LinkObj).get? 0).bind LinkObj.caption :=
  ⟨by simp, caption_last_write_wins [capFirst, capSecond] [objSel, objIdle] 0 (by simp)⟩

/-- A word dict as produced by page.extract_words(): text plus
coordinates (src/linking.py, group_words_into_lines). -/
structure Word where
  text : String
  x0 : ℚ
  x1 : ℚ
  top : ℚ
  bottom : ℚ
  deriving DecidableEq, Repr

/-- A line object as built by group_words_into_lines
(src/linking.py lines 97-102). -/
structure Line where
  text : String
  bbox : BBox
  top : ℚ
  bottom : ℚ
  deriving DecidableEq, Repr

/-- The whitespace class of Python str.strip() / regex backslash-s,
restricted to the ASCII whitespace characters. -/
def isPySpace (c : Char) : Bool :=
  c = ' ' || c = '\t' || c = '\n' || c = '\r' || c = '\x0b' || c = '\x0c'

/-- Python str.strip(): drop leading and trailing whitespace. -/
def pyStrip (s : String) : String :=
  (((s.toList.dropWhile isPySpace).reverse.dropWhile isPySpace).reverse).asString

/-- Python " ".join(texts). -/
def joinSpace (ts : List String) : String :=
  String.intercalate " " ts

/-- The sort key ordering of sorted(words, key=lambda w: (w["top"], w["x0"]))
(src/linking.py line 71), as a non-strict lexicographic comparison; Python
sorted is stable, which insertion sort with a non-strict comparison
reproduces. -/
def wordKeyLe (a b : Word) : Prop :=
  a.top < b.top ∨ (a.top = b.top ∧ a.x0 ≤ b.x0)

instance : DecidableRel wordKeyLe := fun a b =>
  inferInstanceAs (Decidable (_ ∨ _))

/-- sorted(words, key=lambda w: (w["top"], w["x0"])). -/
def sort_words (words : List Word) : List Word :=
  words.insertionSort wordKeyLe

/-- The grouping loop of group_words_into_lines (src/linking.py
lines 73-86): a word joins the current line when its top is within
y_threshold of the top of the line's first word; otherwise the current
line is closed and a new one starts.  The final current line is always
appended (it is never empty, since it always holds at least one word). -/
def group_lines_loop (thr : ℚ) (current : List Word) (current_top : ℚ) :
    List Word → List (List Word)
  | [] => [current]
  | w :: ws =>
    if |w.top - current_top| ≤ thr then
      group_lines_loop thr (current ++ [w]) current_top ws
    else
      current :: group_lines_loop thr [w] w.top ws

/-- Conversion of one grouped word list into a line object
(src/linking.py lines 88-102): space-joined stripped text and the
componentwise min/max bounding box.  The empty case is unreachable
because the grouping loop only produces non-empty groups. -/
def make_line_object : List Word → Line
  | [] => ⟨"", ⟨0, 0, 0, 0⟩, 0, 0⟩
  | w :: ws =>
    let x0 := ws.foldl (fun a v => min a v.x0) w.x0
    let x1 := ws.foldl (fun a v => max a v.x1) w.x1
    let top := ws.foldl (fun a v => min a v.top) w.top
    let bottom := ws.foldl (fun a v => max a v.bottom) w.bottom
    ⟨pyStrip (joinSpace ((w :: ws).map Word.text)), ⟨x0, top, x1, bottom⟩,
      top, bottom⟩

/-- group_words_into_lines (src/linking.py lines 67-104). -/
def group_words_into_lines (words : List Word) (y_threshold : ℚ) :
    List Line :=
  match sort_words words with
  | [] => []
  | w :: ws => (group_lines_loop y_threshold [w] w.top ws).map make_line_object

/-- Componentwise union (min/max) bounding box of a word list; the bbox
group_words_into_lines computes for a line equals the union box of its
words. -/
def union_bbox : List Word → BBox
  | [] => ⟨0, 0, 0, 0⟩
  | w :: ws =>
    ⟨ws.foldl (fun a v => min a v.x0) w.x0,
     ws.foldl (fun a v => min a v.top) w.top,
     ws.foldl (fun a v => max a v.x1) w.x1,
     ws.foldl (fun a v => max a v.bottom) w.bottom⟩

section FoldAlgebra

variable (op : ℚ → ℚ → ℚ) (f : Word → ℚ)

/-- Folding a commutative operation over a permuted list gives the same
result. -/
theorem foldOp_perm (hcomm : ∀ a b, op a b = op b a)
    (hassoc : ∀ a b c, op (op a b) c = op a (op b c)) :
    ∀ {l l' : List Word}, l.Perm l' →
      ∀ a, l.foldl (fun b v => op b (f v)) a =
        l'.foldl (fun b v => op b (f v)) a := by
  intro l l' h
  induction h with
  | nil => intro a; rfl
  | cons x _ ih =>
    intro a
    simp only [List.foldl_cons]
    exact ih _
  | swap x y l =>
    intro a
    simp only [List.foldl_cons]
    have : op (op a (f y)) (f x) = op (op a (f x)) (f y) := by
      rw [hassoc, hassoc, hcomm (f y) (f x)]
    rw [this]
  | trans _ _ ih1 ih2 =>
    intro a
    rw [ih1, ih2]

/-- The initial accumulator distributes out of the fold. -/
theorem foldOp_pull (hassoc : ∀ a b c, op (op a b) c = op a (op b c)) :
    ∀ (l : List Word) (a b : ℚ),
      l.foldl (fun t v => op t (f v)) (op a b) =
        op a (l.foldl (fun t v => op t (f v)) b) := by
  intro l
  induction l with
  | nil => intro a b; rfl
  | cons c t ih =>
    intro a b
    simp only [List.foldl_cons]
    rw [hassoc, ih]

/-- A value already present in the list is absorbed by an idempotent
commutative fold. -/
theorem foldOp_absorb (hcomm : ∀ a b, op a b = op b a)
    (hassoc : ∀ a b c, op (op a b) c = op a (op b c))
    (hidem : ∀ a, op a a = a) :
    ∀ (l : List Word) (x : Word), x ∈ l →
      ∀ a, l.foldl (fun t v => op t (f v)) (op a (f x)) =
        l.foldl (fun t v => op t (f v)) a := by
  intro l
  induction l with
  | nil => intro x hx; exact absurd hx (by simp)
  | cons c t ih =>
    intro x hx a
    rcases List.mem_cons.mp hx with hx | hx
    · subst hx
      simp only [List.foldl_cons]
      have : op (op a (f x)) (f x) = op a (f x) := by
        rw [hassoc, hidem]
      rw [this]
    · simp only [List.foldl_cons]
      have : op (op a (f x)) (f c) = op (op a (f c)) (f x) := by
        rw [hassoc, hassoc, hcomm (f x) (f c)]
      rw [this, ih x hx]

/-- Head-seeded folds over permuted non-empty lists agree. -/
theorem foldOp_head_perm (hcomm : ∀ a b, op a b = op b a)
    (hassoc : ∀ a b c, op (op a b) c = op a (op b c))
    (hidem : ∀ a, op a a = a)
    (w v : Word) (ws vs : List Word)
    (h : (w :: ws).Perm (v :: vs)) :
    ws.foldl (fun t u => op t (f u)) (f w) =
      vs.foldl (fun t u => op t (f u)) (f v) := by
  have habsw : ws.foldl (fun t u => op t (f u)) (f w) =
      (w :: ws).foldl (fun t u => op t (f u)) (f w) := by
    simp only [List.foldl_cons, hidem]
  have habsv : vs.foldl (fun t u => op t (f u)) (f v) =
      (v :: vs).foldl (fun t u => op t (f u)) (f v) := by
    simp only [List.foldl_cons, hidem]
  have hw_mem : w ∈ v :: vs := h.mem_iff.mp (by simp)
  have hv_mem : v ∈ v :: vs := by simp
  rw [habsw, habsv]
  rw [foldOp_perm op f hcomm hassoc h (f w)]
  have h1 : (v :: vs).foldl (fun t u => op t (f u)) (op (f v) (f w)) =
      (v :: vs).foldl (fun t u => op t (f u)) (f v) :=
    foldOp_absorb op f hcomm hassoc hidem (v :: vs) w hw_mem (f v)
  have h2 : (v :: vs).foldl (fun t u => op t (f u)) (op (f w) (f v)) =
      (v :: vs).foldl (fun t u => op t (f u)) (f w) :=
    foldOp_absorb op f hcomm hassoc hidem (v :: vs) v hv_mem (f w)
  rw [← h2, hcomm (f w) (f v), h1]

end FoldAlgebra

/-- The union bounding box is invariant under permutation of the words. -/
theorem union_bbox_perm {l l' : List Word} (h : l.Perm l') :
    union_bbox l = union_bbox l' := by
  cases l with
  | nil =>
    have : l' = [] := h.symm.eq_nil
    rw [this]
  | cons w ws =>
    cases l' with
    | nil => exact absurd h.eq_nil (by simp)
    | cons v vs =>
      simp only [union_bbox, BBox.mk.injEq]
      refine ⟨?_, ?_, ?_, ?_⟩
      · exact foldOp_head_perm min Word.x0 min_comm min_assoc min_self w v ws vs h
      · exact foldOp_head_perm min Word.top min_comm min_assoc min_self w v ws vs h
      · exact foldOp_head_perm max Word.x1 max_comm max_assoc max_self w v ws vs h
      · exact foldOp_head_perm max Word.bottom max_comm max_assoc max_self w v ws vs h

/-- When every remaining word is within the threshold of the current
line's reference top, the grouping loop produces a single group. -/
theorem group_lines_loop_single (thr t : ℚ) :
    ∀ (ws cur : List Word), (∀ u ∈ ws, |u.top - t| ≤ thr) →
      group_lines_loop thr cur t ws = [cur ++ ws] := by
  intro ws
  induction ws with
  | nil => intro cur _; simp [group_lines_loop]
  | cons w ws ih =>
    intro cur hband
    have hw : |w.top - t| ≤ thr := hband w (by simp)
    simp only [group_lines_loop, if_pos hw]
    rw [ih (cur ++ [w]) (fun u hu => hband u (by simp [hu]))]
    simp

/-- C7 (amended): for a non-empty word set whose tops pairwise lie within
y_threshold of each other, group_words_into_lines yields exactly one line,
containing all the words with their texts joined in ascending (top, x0)
lexicographic order — which is ascending x0 order when the tops are
identical, but not in general — and whose bounding box (and top/bottom) is
the componentwise union of the word boxes. -/
theorem group_words_single_band (words : List Word) (thr : ℚ)
    (hne : words ≠ [])
    (hband : ∀ a ∈ words, ∀ b ∈ words, |a.top - b.top| ≤ thr) :
    group_words_into_lines words thr =
      [{ text := pyStrip (joinSpace ((sort_words words).map Word.text)),
         bbox := union_bbox words,
         top := (union_bbox words).top,
         bottom := (union_bbox words).bottom }] := by
  have hperm : (sort_words words).Perm words :=
    List.perm_insertionSort wordKeyLe words
  cases hs : sort_words words with
  | nil =>
    exfalso
    rw [hs] at hperm
    exact hne hperm.symm.eq_nil
  | cons w ws =>
    have hpermc : (w :: ws).Perm words := hs ▸ hperm
    have hmemw : w ∈ words := hpermc.mem_iff.mp (by simp)
    have hband' : ∀ u ∈ ws, |u.top - w.top| ≤ thr := by
      intro u hu
      exact hband u (hpermc.mem_iff.mp (by simp [hu])) w hmemw
    simp only [group_words_into_lines, hs]
    rw [group_lines_loop_single thr w.top ws [w] hband']
    simp only [List.cons_append, List.nil_append, List.map_cons,
      List.map_nil]
    have hmk : make_line_object (w :: ws) =
        { text := pyStrip (joinSpace ((w :: ws).map Word.text)),
          bbox := union_bbox (w :: ws),
          top := (union_bbox (w :: ws)).top,
          bottom := (union_bbox (w :: ws)).bottom } := by
      simp [make_line_object, union_bbox]
    rw [hmk, union_bbox_perm hpermc]
    simp

/-- Counterexample data for C7: a word with small x0 but lower top. -/
def wHighRight : Word := ⟨"A", 100, 110, 0, 10⟩

/-- Counterexample data for C7: a word left of the other but slightly
lower on the page, within the threshold. -/
def wLowLeft : Word := ⟨"B", 0, 10, 2, 12⟩

/-- C7 counterexample: both words lie within the 3-unit threshold of each
other, so the claim demands one line joined in ascending x0 order, which
would read "B A"; the code sorts by (top, x0) and produces "A B". -/
theorem group_words_not_x0_order :
    (∀ a ∈ [wHighRight, wLowLeft], ∀ b ∈ [wHighRight, wLowLeft],
        |a.top - b.top| ≤ (3 : ℚ)) ∧
      (group_words_into_lines [wHighRight, wLowLeft] 3).map Line.text =
        ["A B"] ∧
      ("A B" : String) ≠ "B A" := by
  refine ⟨?_, ?_, by decide⟩
  · norm_num [List.forall_mem_cons, wHighRight, wLowLeft]
  · norm_num [group_words_into_lines, sort_words, List.insertionSort,
      List.orderedInsert, wordKeyLe, wHighRight, wLowLeft, group_lines_loop,
      make_line_object, pyStrip, joinSpace, isPySpace, String.intercalate]
    decide

/-- Witness data for C7: two words with identical tops. -/
def wHello : Word := ⟨"hello", 0, 40, 10, 20⟩

/-- Witness data for C7: the right-hand word of the witness pair. -/
def wWorld : Word := ⟨"world", 50, 90, 10, 20⟩

/-- Witness for the amended C7 theorem at a concrete input. -/
theorem group_words_single_band_witness :
    (([wHello, wWorld] : List Word) ≠ []) ∧
      (∀ a ∈ [wHello, wWorld], ∀ b ∈ [wHello, wWorld],
        |a.top - b.top| ≤ (3 : ℚ)) ∧
      group_words_into_lines [wHello, wWorld] 3 =
        [{ text := pyStrip (joinSpace ((sort_words [wHello, wWorld]).map
              Word.text)),
           bbox := union_bbox [wHello, wWorld],
           top := (union_bbox [wHello, wWorld]).top,
           bottom := (union_bbox [wHello, wWorld]).bottom }] := by
  have h1 : ([wHello, wWorld] : List Word) ≠ [] := by simp
  have h2 : ∀ a ∈ [wHello, wWorld], ∀ b ∈ [wHello, wWorld],
      |a.top - b.top| ≤ (3 : ℚ) := by
    norm_num [List.forall_mem_cons, wHello, wWorld]
  exact ⟨h1, h2, group_words_single_band [wHello, wWorld] 3 h1 h2⟩

/-- Word character class of the regex word boundary (ASCII model of
Python backslash-b / backslash-w). -/
def isWordChar (c : Char) : Bool :=
  c.isAlphanum || c = '_'

/-- Roman-numeral character class [ivxlcdm] of the TABLE pattern, case
insensitive. -/
def isRomanChar (c : Char) : Bool :=
  let l := c.toLower
  l = 'i' || l = 'v' || l = 'x' || l = 'l' || l = 'c' || l = 'd' || l = 'm'

/-- Shared tail of both caption regexes (src/linking.py lines 42, 52):
one or more whitespace characters, then a maximal non-empty run of
characters of the given class, which must end at a word boundary (end of
text or a non-word character).  Backtracking to a shorter run cannot help,
because the run characters are themselves word characters. -/
def matchSpacedRun (rest : List Char) (p : Char → Bool) : Option String :=
  if (rest.takeWhile isPySpace).isEmpty then none
  else
    let rest2 := rest.dropWhile isPySpace
    let run := rest2.takeWhile p
    if run.isEmpty then none
    else
      match rest2.dropWhile p with
      | [] => some run.asString
      | c :: _ => if isWordChar c then none else some run.asString

/-- Ordinal of the TABLE pattern (src/linking.py line 42): after a
case-insensitive "table" prefix, a roman-numeral or digit run — the regex
tries the roman branch first, and the two branches start with disjoint
character classes. -/
def table_ordinal (chars : List Char) : Option String :=
  if (chars.take 5).map Char.toLower = "table".toList then
    match matchSpacedRun (chars.drop 5) isRomanChar with
    | some n => some n
    | none => matchSpacedRun (chars.drop 5) Char.isDigit
  else none

/-- Ordinal of the FIGURE pattern (src/linking.py line 52): the prefix
alternatives fig-dot, figure, fig (in regex backtracking order; when the
text starts with fig-dot the other alternatives cannot also apply),
followed by a digit run. -/
def fig_ordinal (chars : List Char) : Option String :=
  if (chars.take 4).map Char.toLower = "fig.".toList then
    matchSpacedRun (chars.drop 4) Char.isDigit
  else if (chars.take 6).map Char.toLower = "figure".toList then
    matchSpacedRun (chars.drop 6) Char.isDigit
  else if (chars.take 3).map Char.toLower = "fig".toList then
    matchSpacedRun (chars.drop 3) Char.isDigit
  else none

/-- The result dict of detect_caption: type, number, caption
(src/linking.py lines 44-59). -/
structure CapMatch where
  ctype : CapType
  number : String
  caption : String
  deriving DecidableEq, Repr

/-- detect_caption (src/linking.py lines 38-62): strip the text, try the
TABLE pattern, then the FIGURE pattern. -/
def detect_caption (text : String) : Option CapMatch :=
  let stripped := pyStrip text
  let chars := stripped.toList
  match table_ordinal chars with
  | some n => some ⟨CapType.table, n, stripped⟩
  | none =>
    match fig_ordinal chars with
    | some n => some ⟨CapType.figure, n, stripped⟩
    | none => none

/-- Cased (ASCII) character, for Python isupper/istitle. -/
def isCasedChar (c : Char) : Bool :=
  c.isUpper || c.isLower

/-- Python str.isupper(): at least one cased character and no lowercase
character. -/
def pyIsUpper (s : String) : Bool :=
  s.toList.any isCasedChar && s.toList.all (fun c => !c.isLower)

/-- State machine of Python str.istitle(): uppercase letters may only
follow uncased characters, lowercase letters only cased ones. -/
def pyIsTitleAux : Bool → List Char → Bool
  | _, [] => true
  | prevCased, c :: cs =>
    if c.isUpper then !prevCased && pyIsTitleAux true cs
    else if c.isLower then prevCased && pyIsTitleAux true cs
    else pyIsTitleAux false cs

/-- Python str.istitle(). -/
def pyIsTitle (s : String) : Bool :=
  pyIsTitleAux false s.toList && s.toList.any isCasedChar

/-- The caption-detection loop of build_phase4_links (src/linking.py
lines 249-267): every line is tested with detect_caption; on a match the
caption text is the stripped line text, extended with the stripped next
line when that next line is shorter than 140 characters and is upper-case
or title-case.  The loop only reads lines[i] and lines[i+1]; it removes
nothing from the line list, and the next line is still tested itself on
the following iteration. -/
def caption_pass : List Line → List Caption
  | [] => []
  | l :: rest =>
    match detect_caption l.text with
    | none => caption_pass rest
    | some cap =>
      let full0 := pyStrip l.text
      let full :=
        match rest with
        | [] => full0
        | nxt :: _ =>
          let nextLine := pyStrip nxt.text
          if nextLine.length < 140 && (pyIsUpper nextLine || pyIsTitle nextLine) then
            full0 ++ " " ++ nextLine
          else full0
      ⟨cap.ctype, cap.number, full, l.bbox⟩ :: caption_pass rest

/-- The accumulation loop of extract_paragraphs_from_lines
(src/linking.py lines 117-141): prev is the previous line, and the
accumulated paragraph text/top/bottom are flushed when the vertical gap
from prev to the current line exceeds the threshold. -/
def extract_paragraphs_loop (thr : ℚ) :
    Line → String → ℚ → ℚ → List Line → List Paragraph
  | _, text, ptop, pbot, [] => [⟨pyStrip text, ptop, pbot⟩]
  | prev, text, ptop, pbot, curr :: rest =>
    if curr.top - prev.bottom > thr then
      ⟨pyStrip text, ptop, pbot⟩ ::
        extract_paragraphs_loop thr curr curr.text curr.top curr.bottom rest
    else
      extract_paragraphs_loop thr curr (text ++ " " ++ curr.text) ptop
        (max pbot curr.bottom) rest

/-- extract_paragraphs_from_lines (src/linking.py lines 108-143). -/
def extract_paragraphs_from_lines (lines : List Line) (gap_threshold : ℚ) :
    List Paragraph :=
  match lines with
  | [] => []
  | l :: rest => extract_paragraphs_loop gap_threshold l l.text l.top l.bottom rest

/-- The slice of build_phase4_links relevant to C8: captions are detected
first (lines 249-267), then paragraphs are extracted from the same line
list (line 316, with the default gap_threshold 12). -/
def page_captions_and_paragraphs (lines : List Line) :
    List Caption × List Paragraph :=
  let captions := caption_pass lines
  let paragraphs := extract_paragraphs_from_lines lines 12
  (captions, paragraphs)

/-- C8: the caption-detection pass leaves the line sequence unchanged.
The paragraph component of the page output equals paragraph extraction on
the full original line list (the caption pass takes the lines by value and
returns only captions, exactly as the source loop never mutates lines);
moreover the lookahead does not consume the next line from the caption
scan itself: the captions found in the remaining lines are a suffix of the
captions found when one more line is prepended. -/
theorem caption_pass_frame (lines : List Line) (l : Line) (rest : List Line) :
    (page_captions_and_paragraphs lines).2 =
        extract_paragraphs_from_lines lines 12
    ∧ (page_captions_and_paragraphs lines).1 = caption_pass lines
    ∧ List.IsSuffix (caption_pass rest) (caption_pass (l :: rest)) := by
  refine ⟨rfl, rfl, ?_⟩
  show caption_pass rest <:+ caption_pass (l :: rest)
  cases hd : detect_caption l.text with
  | none =>
    simp only [caption_pass, hd]
    exact List.suffix_refl _
  | some cap =>
    simp only [caption_pass, hd]
    exact List.suffix_cons _ _

/-- Collapse of every maximal whitespace run into a single space: the
effect of re.sub of one-or-more-whitespace with a single space in
clean_text (src/make_chunks.py line 11). -/
def collapseWS : List Char → List Char
  | [] => []
  | c :: cs =>
    if isPySpace c then ' ' :: collapseWS (cs.dropWhile isPySpace)
    else c :: collapseWS cs
  termination_by l => l.length
  decreasing_by
    all_goals simp
    exact Nat.lt_succ_of_le (List.dropWhile_sublist isPySpace).length_le

/-- clean_text (src/make_chunks.py lines 8-12): collapse whitespace runs
to single spaces and strip; the early return for empty input coincides
with the general case. -/
def clean_text (text : String) : String :=
  pyStrip (collapseWS text.toList).asString

/-- table_to_text (src/make_chunks.py lines 16-31): each row's cells
(None rendered as the empty string, other cells stripped) joined with
pipes, rows joined with newlines, and the result stripped. -/
def table_to_text (table_rows : List (List (Option String))) : String :=
  if table_rows.isEmpty then ""
  else
    pyStrip (String.intercalate "\n" (table_rows.map (fun row =>
      String.intercalate " | " (row.map (fun cell =>
        match cell with
        | none => ""
        | some s => pyStrip s)))))

/-- A table dict of the phase-4 JSON as consumed by make_chunks
(src/linking.py lines 274-279): table cells are modelled as optional
strings (str of the cell is the identity on this model). -/
structure ChunkTable where
  table_number : Nat
  bbox : BBox
  rows : List (List (Option String))
  caption : Option String
  deriving DecidableEq, Repr

/-- An image dict of the phase-4 JSON as consumed by make_chunks
(src/linking.py lines 296-301). -/
structure ChunkImage where
  image_number : Nat
  bbox : BBox
  ocr_text : String
  caption : Option String
  deriving DecidableEq, Repr

/-- Python value-or-default via the or operator, where None and the empty
string are both falsy (src/make_chunks.py lines 49 and 58). -/
def pyOr (v : Option String) (default : String) : String :=
  match v with
  | some s => if s = "" then default else s
  | none => default

/-- build_chunk_text (src/make_chunks.py lines 35-69): header, optional
paragraph section, cited-table sections, cited-figure sections; returns
the stripped text and the citation list (table captions first, then image
captions, in input order). -/
def build_chunk_text (page_no : Nat) (paragraph_text : Option String)
    (tables : List ChunkTable) (images : List ChunkImage)
    (chunk_type : String) : String × List String :=
  let t0 := "[PAGE: " ++ toString page_no ++ "]\n[CHUNK TYPE: " ++
    chunk_type.map Char.toUpper ++ "]\n\n"
  let t1 :=
    match paragraph_text with
    | some p => if p = "" then t0 else t0 ++ "PARAGRAPH:\n" ++ clean_text p ++ "\n\n"
    | none => t0
  let acc2 := tables.foldl
    (fun (acc : String × List String) t =>
      let caption := pyOr t.caption ("Table " ++ toString t.table_number)
      (acc.1 ++ "[CITED TABLE: " ++ caption ++ "]\n" ++
         table_to_text t.rows ++ "\n\n",
       acc.2 ++ [caption]))
    (t1, [])
  let acc3 := images.foldl
    (fun (acc : String × List String) im =>
      let caption := pyOr im.caption ("Image " ++ toString im.image_number)
      let ocr := clean_text im.ocr_text
      (acc.1 ++ "[CITED FIGURE: " ++ caption ++ "]\n" ++
         (if ocr = "" then "(No OCR text extracted)\n\n" else ocr ++ "\n\n"),
       acc.2 ++ [caption]))
    acc2
  (pyStrip acc3.1, acc3.2)

/-- The slicing loop of split_long_text (src/make_chunks.py lines 77-82)
for a chunk size of mp + 1: each step takes the next mp + 1 characters.
The step count is bounded by the text length because each step consumes at
least one character. -/
def splitChunksAux (mp : Nat) : List Char → List (List Char)
  | [] => []
  | c :: cs => ((c :: cs).take (mp + 1)) :: splitChunksAux mp (cs.drop mp)
  termination_by l => l.length
  decreasing_by
    simp
    omega

/-- split_long_text (src/make_chunks.py lines 73-83) at character-list
level.  For max_chars = 0 the Python while loop never terminates on
non-empty input; that case (which no caller reaches — the callers pass
1400 or 1600) is mapped to the empty list. -/
def split_long_text (text : List Char) (max_chars : Nat) : List (List Char) :=
  if text.length ≤ max_chars then [text]
  else
    match max_chars with
    | 0 => []
    | mp + 1 => splitChunksAux mp text

/-- split_long_text on Lean strings (the call sites in make_chunks pass
Python strings; slicing a Python string is slicing its character
sequence). -/
def split_long_text_str (text : String) (max_chars : Nat) : List String :=
  (split_long_text text.toList max_chars).map List.asString

/-- A block of the phase-4 JSON (src/linking.py lines 325-330) restricted
to the fields make_chunks reads. -/
structure Block where
  paragraph_text : String
  linked_tables : List ChunkTable
  linked_images : List ChunkImage
  deriving DecidableEq, Repr

/-- A page of the phase-4 JSON (src/linking.py lines 332-339) restricted
to the fields make_chunks reads. -/
structure PageData where
  page : Nat
  page_full_text : String
  tables_found : List ChunkTable
  images_found : List ChunkImage
  blocks : List Block
  deriving DecidableEq, Repr

/-- A final chunk record (src/make_chunks.py lines 143-151 etc.). -/
structure Chunk where
  chunk_id : String
  page : Nat
  text : String
  citations : List String
  contains_table : Bool
  contains_figure : Bool
  chunk_type : String
  deriving DecidableEq, Repr

/-- A chunk before deduplication: everything but the content hash. -/
structure PreChunk where
  page : Nat
  text : String
  citations : List String
  contains_table : Bool
  contains_figure : Bool
  chunk_type : String
  deriving DecidableEq, Repr

/-- The deduplicating append shared by all four emission sites of
make_chunks (src/make_chunks.py lines 137-151, 168-181, 198-211,
226-239): hash the rendered text, skip if the hash was seen anywhere in
the run, otherwise record the hash and append the chunk.  The md5 content
hash is modelled as an arbitrary hash-function parameter; the claims
about deduplication assume it is injective. -/
def emit (hash : String → String) (st : List Chunk × List String)
    (pc : PreChunk) : List Chunk × List String :=
  let cid := hash pc.text
  if cid ∈ st.2 then st
  else
    (st.1 ++ [⟨cid, pc.page, pc.text, pc.citations, pc.contains_table,
       pc.contains_figure, pc.chunk_type⟩],
     st.2 ++ [cid])

/-- The paragraph-based chunks of one block (src/make_chunks.py
lines 110-151): blocks whose stripped paragraph text is empty are
skipped; the rendered chunk text is split at 1600 characters and each part
becomes one pre-chunk carrying the same citations and flags. -/
def block_prechunks (page_no : Nat) (b : Block) : List PreChunk :=
  let ptext := pyStrip b.paragraph_text
  if ptext = "" then []
  else
    let bc := build_chunk_text page_no (some ptext) b.linked_tables
      b.linked_images "paragraph"
    (split_long_text_str bc.1 1600).map (fun sub =>
      ⟨page_no, sub, bc.2, !b.linked_tables.isEmpty,
        !b.linked_images.isEmpty, "paragraph"⟩)

/-- The table ids marked used by the block loop (src/make_chunks.py
lines 119-121): tables linked from blocks with non-empty paragraph text;
the source keys the set by str(bbox), which on this model is keyed by the
bbox itself. -/
def used_table_ids (blocks : List Block) : List BBox :=
  (blocks.filter (fun b => !(pyStrip b.paragraph_text = ""))).flatMap
    (fun b => b.linked_tables.map ChunkTable.bbox)

/-- The image ids marked used by the block loop (src/make_chunks.py
lines 123-124). -/
def used_image_ids (blocks : List Block) : List BBox :=
  (blocks.filter (fun b => !(pyStrip b.paragraph_text = ""))).flatMap
    (fun b => b.linked_images.map ChunkImage.bbox)

/-- The table-only chunks of one page (src/make_chunks.py
lines 154-181). -/
def table_only_prechunks (page_no : Nat) (usedT : List BBox)
    (tables_found : List ChunkTable) : List PreChunk :=
  (tables_found.filter (fun t => !(usedT.contains t.bbox))).map (fun t =>
    let bc := build_chunk_text page_no none [t] [] "table_only"
    ⟨page_no, bc.1, bc.2, true, false, "table_only"⟩)

/-- The figure-only chunks of one page (src/make_chunks.py
lines 184-211). -/
def figure_only_prechunks (page_no : Nat) (usedI : List BBox)
    (images_found : List ChunkImage) : List PreChunk :=
  (images_found.filter (fun im => !(usedI.contains im.bbox))).map (fun im =>
    let bc := build_chunk_text page_no none [] [im] "figure_only"
    ⟨page_no, bc.1, bc.2, false, true, "figure_only"⟩)

/-- The full-page-text fallback chunks of one page (src/make_chunks.py
lines 213-239): only emitted when the stripped page text is non-empty;
the cleaned text is split at 1600 characters and each part is prefixed
with the page/fallback header. -/
def fallback_prechunks (page_no : Nat) (page_full_text : String) :
    List PreChunk :=
  let stripped := pyStrip page_full_text
  if stripped = "" then []
  else
    (split_long_text_str (clean_text stripped) 1600).map (fun part =>
      ⟨page_no,
        "[PAGE: " ++ toString page_no ++
          "]\n[CHUNK TYPE: FULL_TEXT_FALLBACK]\n\n" ++ part,
        [], false, false, "full_text_fallback"⟩)

/-- All pre-chunks of one page in emission order: paragraph chunks per
block, then unlinked table-only chunks, then unlinked figure-only chunks,
then the fallback chunks (src/make_chunks.py lines 98-239).  Rendering a
chunk never reads the accumulated chunk list or the seen-hash set, so the
source's interleaving of rendering and deduplication is equivalent to
rendering every page's pre-chunks first and folding the deduplicating
append over them in the same order. -/
def page_prechunks (pd : PageData) : List PreChunk :=
  (pd.blocks.flatMap (block_prechunks pd.page)) ++
    table_only_prechunks pd.page (used_table_ids pd.blocks) pd.tables_found ++
    figure_only_prechunks pd.page (used_image_ids pd.blocks) pd.images_found ++
    fallback_prechunks pd.page pd.page_full_text

/-- make_chunks (src/make_chunks.py lines 87-247) as a pure function from
the parsed phase-4 structure to the final chunk list and the seen-hash
list, parameterised by the content hash. -/
def make_chunks (hash : String → String) (pages : List PageData) :
    List Chunk × List String :=
  (pages.flatMap page_prechunks).foldl (emit hash) ([], [])

theorem splitChunksAux_spec (mp : Nat) :
    ∀ (n : Nat) (t : List Char), t.length ≤ n →
      (splitChunksAux mp t).flatten = t ∧
      ∀ part ∈ splitChunksAux mp t, part.length ≤ mp + 1 := by
  intro n
  induction n with
  | zero =>
    intro t ht
    have : t = [] := List.length_eq_zero.mp (Nat.le_zero.mp ht)
    subst this
    exact ⟨by simp [splitChunksAux], by intro part hp; simp [splitChunksAux] at hp⟩
  | succ n ih =>
    intro t ht
    cases t with
    | nil =>
      exact ⟨by simp [splitChunksAux], by intro part hp; simp [splitChunksAux] at hp⟩
    | cons c cs =>
      have hlen : (cs.drop mp).length ≤ n := by
        simp only [List.length_drop]
        simp only [List.length_cons] at ht
        omega
      obtain ⟨ihj, ihb⟩ := ih (cs.drop mp) hlen
      have heq : splitChunksAux mp (c :: cs) =
          ((c :: cs).take (mp + 1)) :: splitChunksAux mp (cs.drop mp) := by
        simp only [splitChunksAux]
      constructor
      · rw [heq, List.flatten_cons, ihj]
        have hdrop : cs.drop mp = (c :: cs).drop (mp + 1) := by
          simp [List.drop_succ_cons]
        rw [hdrop, List.take_append_drop]
      · intro part hp
        rw [heq] at hp
        rcases List.mem_cons.mp hp with hp | hp
        · subst hp
          have := List.length_take (mp + 1) (c :: cs)
          have hmin := min_le_left (mp + 1) (c :: cs).length
          omega
        · exact ihb part hp

theorem foldl_append_str (l : List String) :
    ∀ (a b : String),
      l.foldl (fun r s => r ++ s) (a ++ b) =
        a ++ l.foldl (fun r s => r ++ s) b := by
  induction l with
  | nil => intro a b; rfl
  | cons x t ih =>
    intro a b
    simp only [List.foldl_cons]
    rw [String.append_assoc, ih]

theorem join_cons_str (a : String) (l : List String) :
    String.join (a :: l) = a ++ String.join l := by
  show l.foldl (fun r s => r ++ s) ("" ++ a) = a ++ String.join l
  have h : ("" : String) ++ a = a ++ "" := by
    rw [String.append_empty]
    rfl
  rw [h, foldl_append_str l a ""]
  rfl

theorem join_map_asString (l : List (List Char)) :
    String.join (l.map List.asString) = l.flatten.asString := by
  induction l with
  | nil => rfl
  | cons a t ih =>
    simp only [List.map_cons, List.flatten_cons]
    rw [join_cons_str, ih]
    rfl

/-- C10: for every text and every positive max_chars, the parts returned
by split_long_text concatenate back to the original text in order, and
every part has at most max_chars characters. -/
theorem split_long_text_reassembles (text : String) (max_chars : Nat)
    (h : 0 < max_chars) :
    String.join (split_long_text_str text max_chars) = text ∧
      ∀ part ∈ split_long_text_str text max_chars,
        part.length ≤ max_chars := by
  unfold split_long_text_str split_long_text
  by_cases hle : text.toList.length ≤ max_chars
  · rw [if_pos hle]
    constructor
    · rw [join_map_asString]
      simp only [List.flatten_cons, List.flatten_nil, List.append_nil]
      rfl
    · intro part hp
      simp only [List.map_cons, List.map_nil, List.mem_singleton] at hp
      subst hp
      have : (text.toList.asString).length = text.toList.length := rfl
      rw [this]
      exact hle
  · rw [if_neg hle]
    cases max_chars with
    | zero => exact absurd h (by simp)
    | succ mp =>
      obtain ⟨hj, hb⟩ :=
        splitChunksAux_spec mp text.toList.length text.toList (le_refl _)
      constructor
      · rw [join_map_asString, hj]
        rfl
      · intro part hp
        obtain ⟨pl, hpl, hplp⟩ := List.mem_map.mp hp
        subst hplp
        have : (pl.asString).length = pl.length := rfl
        rw [this]
        exact hb pl hpl

/-- Witness for the C10 theorem at a concrete input. -/
theorem split_long_text_reassembles_witness :
    0 < 4 ∧
      (String.join (split_long_text_str "hello world" 4) = "hello world" ∧
        ∀ part ∈ split_long_text_str "hello world" 4, part.length ≤ 4) :=
  ⟨by decide, split_long_text_reassembles "hello world" 4 (by decide)⟩

/-- Invariant of the make_chunks run state: the seen-hash list is exactly
the list of hashes of the emitted chunk texts (in order), and it has no
duplicates. -/
def stInv (hash : String → String) (st : List Chunk × List String) : Prop :=
  st.2 = st.1.map (fun c => hash c.text) ∧ st.2.Nodup

theorem emit_inv (hash : String → String) (st : List Chunk × List String)
    (pc : PreChunk) (h : stInv hash st) : stInv hash (emit hash st pc) := by
  obtain ⟨h1, h2⟩ := h
  unfold emit
  by_cases hc : hash pc.text ∈ st.2
  · rw [if_pos hc]
    exact ⟨h1, h2⟩
  · rw [if_neg hc]
    constructor
    · simp [h1]
    · rw [List.nodup_append]
      refine ⟨h2, List.nodup_singleton _, ?_⟩
      intro a ha hb
      simp only [List.mem_singleton] at hb
      subst hb
      exact hc ha

theorem foldl_emit_inv (hash : String → String) (l : List PreChunk) :
    ∀ (st : List Chunk × List String), stInv hash st →
      stInv hash (l.foldl (emit hash) st) := by
  induction l with
  | nil => intro st h; exact h
  | cons pc t ih =>
    intro st h
    exact ih (emit hash st pc) (emit_inv hash st pc h)

theorem emit_chunks_mono (hash : String → String)
    (st : List Chunk × List String) (pc : PreChunk) (c : Chunk)
    (h : c ∈ st.1) : c ∈ (emit hash st pc).1 := by
  unfold emit
  by_cases hc : hash pc.text ∈ st.2
  · rw [if_pos hc]; exact h
  · rw [if_neg hc]
    exact List.mem_append_left _ h

theorem foldl_emit_chunks_mono (hash : String → String) (l : List PreChunk) :
    ∀ (st : List Chunk × List String) (c : Chunk), c ∈ st.1 →
      c ∈ (l.foldl (emit hash) st).1 := by
  induction l with
  | nil => intro st c h; exact h
  | cons pc t ih =>
    intro st c h
    exact ih (emit hash st pc) c (emit_chunks_mono hash st pc c h)

theorem emit_mem_text (hash : String → String)
    (hinj : Function.Injective hash) (st : List Chunk × List String)
    (pc : PreChunk) (hinv : stInv hash st) :
    ∃ c ∈ (emit hash st pc).1, c.text = pc.text := by
  obtain ⟨h1, _⟩ := hinv
  unfold emit
  by_cases hc : hash pc.text ∈ st.2
  · rw [if_pos hc]
    rw [h1] at hc
    obtain ⟨c, hcm, hch⟩ := List.mem_map.mp hc
    exact ⟨c, hcm, hinj hch⟩
  · rw [if_neg hc]
    refine ⟨⟨hash pc.text, pc.page, pc.text, pc.citations, pc.contains_table,
      pc.contains_figure, pc.chunk_type⟩, ?_, rfl⟩
    exact List.mem_append_right _ (by simp)

theorem foldl_emit_mem_text (hash : String → String)
    (hinj : Function.Injective hash) (l : List PreChunk) :
    ∀ (st : List Chunk × List String), stInv hash st →
      ∀ pc ∈ l, ∃ c ∈ (l.foldl (emit hash) st).1, c.text = pc.text := by
  induction l with
  | nil => intro st _ pc hpc; exact absurd hpc (by simp)
  | cons q t ih =>
    intro st hinv pc hpc
    rcases List.mem_cons.mp hpc with hpc | hpc
    · subst hpc
      obtain ⟨c, hcm, hct⟩ := emit_mem_text hash hinj st pc hinv
      exact ⟨c, foldl_emit_chunks_mono hash t (emit hash st pc) c hcm, hct⟩
    · exact ih (emit hash st q) (emit_inv hash st q hinv) pc hpc

/-- C5: with an injective content hash, all rendered chunk texts in the
final list are pairwise distinct — a chunk is appended only when the hash
of its text was never seen anywhere in the run, so two chunks with
byte-identical text never both survive, even across pages; and every
rendered pre-chunk text still appears as the text of exactly one
surviving chunk (the one emitted at its first occurrence, all later
duplicates being skipped). -/
theorem make_chunks_texts_distinct (hash : String → String)
    (pages : List PageData) (hinj : Function.Injective hash) :
    List.Pairwise (fun a b : Chunk => a.text ≠ b.text)
      (make_chunks hash pages).1 ∧
    ∀ pc ∈ pages.flatMap page_prechunks,
      ∃ c ∈ (make_chunks hash pages).1, c.text = pc.text := by
  constructor
  · have hinv : stInv hash (make_chunks hash pages) :=
      foldl_emit_inv hash (pages.flatMap page_prechunks) ([], [])
        ⟨rfl, List.nodup_nil⟩
    obtain ⟨h1, h2⟩ := hinv
    rw [h1] at h2
    have hp : List.Pairwise
        (fun a b : Chunk => hash a.text ≠ hash b.text)
        (make_chunks hash pages).1 := by
      rw [List.Nodup] at h2
      exact (List.pairwise_map).mp h2
    exact hp.imp (fun h heq => h (congrArg hash heq))
  · intro pc hpc
    exact foldl_emit_mem_text hash hinj (pages.flatMap page_prechunks)
      ([], []) ⟨rfl, List.nodup_nil⟩ pc hpc

/-- Witness data for C5 and C2: a page with text, a block and an image. -/
def pageW : PageData :=
  ⟨2, "Some page text", [], [⟨1, ⟨0, 0, 10, 10⟩, "ocr text", none⟩],
    [⟨"A paragraph", [], []⟩]⟩

/-- Witness for the C5 theorem at a concrete input. -/
theorem make_chunks_texts_distinct_witness :
    Function.Injective (fun s : String => s) ∧
      (List.Pairwise (fun a b : Chunk => a.text ≠ b.text)
          (make_chunks (fun s => s) [pageW]).1 ∧
        ∀ pc ∈ ([pageW] : List PageData).flatMap page_prechunks,
          ∃ c ∈ (make_chunks (fun s => s) [pageW]).1, c.text = pc.text) :=
  ⟨fun _ _ h => h, make_chunks_texts_distinct (fun s => s) [pageW]
    (fun _ _ h => h)⟩

/-- C2 (amended): for every page whose stripped page_full_text is
non-empty, each part of its rendered fallback text — which embeds the
page's number and the FULL_TEXT_FALLBACK marker — survives as the text of
some chunk in the final list (either the fallback chunk emitted for that
page, or an earlier chunk with byte-identical text that suppressed it).
Pages with empty extracted text emit no fallback chunk at all. -/
theorem fallback_text_survives (hash : String → String)
    (pages : List PageData) (pd : PageData)
    (hinj : Function.Injective hash) (hpd : pd ∈ pages)
    (hne : ¬ pyStrip pd.page_full_text = "") :
    ∀ part ∈ split_long_text_str (clean_text (pyStrip pd.page_full_text)) 1600,
      ∃ c ∈ (make_chunks hash pages).1,
        c.text = "[PAGE: " ++ toString pd.page ++
          "]\n[CHUNK TYPE: FULL_TEXT_FALLBACK]\n\n" ++ part := by
  intro part hpart
  have hfb : (⟨pd.page,
      "[PAGE: " ++ toString pd.page ++
        "]\n[CHUNK TYPE: FULL_TEXT_FALLBACK]\n\n" ++ part,
      [], false, false, "full_text_fallback"⟩ : PreChunk) ∈
      fallback_prechunks pd.page pd.page_full_text := by
    unfold fallback_prechunks
    rw [if_neg hne]
    exact List.mem_map_of_mem _ hpart
  have hpage : (⟨pd.page,
      "[PAGE: " ++ toString pd.page ++
        "]\n[CHUNK TYPE: FULL_TEXT_FALLBACK]\n\n" ++ part,
      [], false, false, "full_text_fallback"⟩ : PreChunk) ∈
      page_prechunks pd := by
    unfold page_prechunks
    exact List.mem_append_right _ hfb
  have hall : (⟨pd.page,
      "[PAGE: " ++ toString pd.page ++
        "]\n[CHUNK TYPE: FULL_TEXT_FALLBACK]\n\n" ++ part,
      [], false, false, "full_text_fallback"⟩ : PreChunk) ∈
      pages.flatMap page_prechunks :=
    List.mem_flatMap.mpr ⟨pd, hpd, hpage⟩
  exact foldl_emit_mem_text hash hinj (pages.flatMap page_prechunks)
    ([], []) ⟨rfl, List.nodup_nil⟩ _ hall

/-- C2 counterexample data: a page with no extracted text and no
objects. -/
def emptyPage : PageData := ⟨1, "", [], [], []⟩

/-- C2 counterexample: the claim says every page always gets a
full_text_fallback chunk, but a page whose extracted text is empty emits
none (the source guards the fallback with a truthiness test on the
stripped page text). -/
theorem empty_page_no_fallback :
    emptyPage ∈ [emptyPage] ∧
      ¬ ∃ c ∈ (make_chunks (fun s => s) [emptyPage]).1,
        c.chunk_type = "full_text_fallback" ∧ c.page = emptyPage.page := by
  refine ⟨by simp, ?_⟩
  have h : (make_chunks (fun s => s) [emptyPage]).1 = [] := by rfl
  rw [h]
  simp

/-- Witness for the amended C2 theorem at a concrete input. -/
theorem fallback_text_survives_witness :
    Function.Injective (fun s : String => s) ∧
      pageW ∈ [pageW] ∧
      (¬ pyStrip pageW.page_full_text = "") ∧
      ∀ part ∈ split_long_text_str (clean_text (pyStrip pageW.page_full_text)) 1600,
        ∃ c ∈ (make_chunks (fun s => s) [pageW]).1,
          c.text = "[PAGE: " ++ toString pageW.page ++
            "]\n[CHUNK TYPE: FULL_TEXT_FALLBACK]\n\n" ++ part := by
  have hinj : Function.Injective (fun s : String => s) := fun _ _ h => h
  have hmem : pageW ∈ [pageW] := by simp
  have hne : ¬ pyStrip pageW.page_full_text = "" := by decide
  exact ⟨hinj, hmem, hne,
    fallback_text_survives (fun s => s) [pageW] pageW hinj hmem hne⟩

end ChatWithPdf
